import Mathlib

/-!
Verification development for the mcp-python-repl server.

The development shallowly embeds the parts of the code base that the
specification talks about:

* `executor.py` — `execute_code`, `_truncate`, `_record`, and the
  sandboxed import check `_restricted_import`;
* `session.py`  — `Session`, `ExecutionRecord`, `variable_summary`,
  `is_expired`, and the `SessionManager` operations `create_session`,
  `get_session`, `delete_session`, `list_sessions`, `_evict_expired`;
* `config.py`   — `Config` and the sandbox denylists;
* `server.py`   — the namespace effects of the variable-admin tools
  (`repl_set_variable`, `repl_delete_variable`, `repl_clear_namespace`)
  and of `repl_run_file` (which injects `__file__` before delegating).

Python values are modelled by `PyObj`: an object identity `ref`
(standing for `id(obj)`, so the `is` / `is not` tests compare `ref`),
the runtime type name `ty`, and a value payload.  Two objects with
different `ref` but equal `payload` model distinct equal-valued
objects.  A namespace is an insertion-ordered association list with
unique keys, exactly like a Python `dict`.

The opaque call `exec(code, exec_ns)` is modelled by an `ExecOutcome`
argument: either a timeout, one of the typed failures, or successful
completion together with the namespace left behind by the executed
code.  Quantifying over all outcomes makes the theorems hold for every
possible behaviour of the untrusted script.

Timestamps are abstract instants measured in minutes (`Nat`); each
stateful operation receives the current instant `now` explicitly,
standing for `datetime.now(timezone.utc)`.
-/

/-- Python object as seen by the coordinator: identity `ref` (the `is`
test compares these), type name `ty`, and a value payload. -/
structure PyObj where
  ref : Nat
  ty : String
  payload : String
deriving DecidableEq, Repr

/-- A Python `dict` used as a namespace: insertion-ordered association
list with unique keys. -/
abbrev NS := List (String × PyObj)

/-- Dictionary lookup, `ns.get(k)` / `ns[k]`. -/
def nsLookup : NS → String → Option PyObj
  | [], _ => none
  | kv :: rest, k => if kv.1 = k then some kv.2 else nsLookup rest k

/-- Dictionary assignment `ns[k] = v`: update in place if the key is
present (a Python dict keeps the key's position), else append. -/
def nsSet : NS → String → PyObj → NS
  | [], k, v => [(k, v)]
  | kv :: rest, k, v => if kv.1 = k then (k, v) :: rest else kv :: nsSet rest k v

/-- Key listing of a namespace. -/
def nsKeys (ns : NS) : List String := ns.map Prod.fst

/-- Immutable server configuration (`config.py`, class `Config`), with
the source defaults.  The working-directory / transport / host / port
fields play no role in any claim and are omitted. -/
structure Config where
  timeout_seconds : Nat := 30
  max_sessions : Nat := 50
  session_ttl_minutes : Nat := 120
  max_output_bytes : Nat := 1048576
  max_log_entries : Nat := 200
  sandbox_enabled : Bool := false
deriving DecidableEq, Repr

/-- Modules blocked in sandboxed mode (`config.py`,
`SANDBOXED_BLOCKED_MODULES`).  The source uses a `frozenset`; the list
records the literal's contents. -/
def SANDBOXED_BLOCKED_MODULES : List String :=
  ["subprocess", "shutil", "ctypes", "socket", "http.server", "xmlrpc",
   "ftplib", "smtplib", "telnetlib", "webbrowser", "antigravity"]

/-- Builtins removed in sandboxed mode (`config.py`,
`SANDBOXED_BLOCKED_BUILTINS`). -/
def SANDBOXED_BLOCKED_BUILTINS : List String :=
  ["exec", "eval", "compile", "__import__"]

/-- A single code-execution record (`session.py`, `ExecutionRecord`). -/
structure ExecutionRecord where
  timestamp : Nat
  code_preview : String
  status : String
  new_vars : List String
  modified_vars : List String
  error : Option String
deriving DecidableEq, Repr

/-- An isolated Python execution session (`session.py`, `Session`).
The field `ns` models the Python attribute `namespace` (a Lean
keyword). -/
structure Session where
  session_id : String
  created_at : Nat
  last_used : Nat
  ns : NS
  history : List ExecutionRecord
deriving DecidableEq, Repr

/-- Structured result of a single code execution (`executor.py`,
`ExecutionResult`). -/
structure ExecutionResult where
  status : String
  result : Option PyObj := none
  stdout : String := ""
  stderr : String := ""
  error_type : Option String := none
  error_message : Option String := none
  error_traceback : Option String := none
  error_line : Option Nat := none
  hint : Option String := none
  new_vars : Option (List String) := none
  modified_vars : Option (List String) := none
deriving DecidableEq, Repr

/-- Behaviour of the opaque `exec(code, exec_ns)` call: timeout, one of
the typed failures caught by `execute_code`, or completion with the
namespace the script left behind and the captured output buffers. -/
inductive ExecOutcome where
  | timeout (stdoutBuf stderrBuf : String)
  | syntaxErr (msg : String) (lineno : Option Nat)
  | nameErr (msg : String)
  | runtimeErr (ty msg tb : String) (stdoutBuf stderrBuf : String)
  | ok (finalNs : NS) (stdoutBuf stderrBuf : String)
deriving DecidableEq, Repr

/-- A single-quote character, used to reproduce the quotes inside the
source's f-strings. -/
def singleQuote : String := "\x27"

/-- Top-level component of a dotted module name, `name.split(".")[0]`:
the characters before the first dot (the whole name when it has no
dot). -/
def topLevelOf (name : String) : String :=
  String.mk (name.toList.takeWhile (fun c => c ≠ '.'))

/-- Lexicographic comparison of character lists by code point, the
order Python's `sorted` uses on strings. -/
def charListLe : List Char → List Char → Bool
  | [], _ => true
  | _ :: _, [] => false
  | a :: as, b :: bs =>
      if a = b then charListLe as bs else decide (a.toNat < b.toNat)

/-- String comparison used to model `sorted` on module names. -/
def strLe (a b : String) : Bool := charListLe a.toList b.toList

/-- Enumeration embedded in the sandbox denial message:
`", ".join(sorted(SANDBOXED_BLOCKED_MODULES))`. -/
def blockedModulesEnumeration : String :=
  String.intercalate ", "
    (List.insertionSort (fun a b => strLe a b = true) SANDBOXED_BLOCKED_MODULES)

/-- Message of the `ImportError` raised by the sandboxed import. -/
def importBlockedMessage (name : String) : String :=
  "Module " ++ singleQuote ++ name ++ singleQuote ++ " is blocked in sandbox mode. " ++
    "Blocked modules: " ++ blockedModulesEnumeration

/-- Sandboxed import check (`executor.py`, `_restricted_import` inside
`_make_sandbox_builtins`): block when the top-level component of the
dotted name is in the denylist, otherwise delegate to the real import
(modelled as success of the check). -/
def _restricted_import (name : String) : Except String Unit :=
  if SANDBOXED_BLOCKED_MODULES.contains (topLevelOf name) then
    Except.error (importBlockedMessage name)
  else Except.ok ()

/-- Import check actually in force for an execution: `execute_code`
installs `_restricted_import` only when `config.sandbox_enabled`;
otherwise `__builtins__` is the unmodified builtins module, whose own
importer applies no sandbox policy at all. -/
def importCheck (sandbox_enabled : Bool) (name : String) : Except String Unit :=
  if sandbox_enabled then _restricted_import name else Except.ok ()

/-- Boolean test modelling Python `str.startswith`: the prefix's
characters lead the string's characters.  (Extensionally the same as
`String.startsWith`, but stated over the character lists so that it
evaluates by computation.) -/
def strStartsWith (s pre : String) : Bool := pre.toList.isPrefixOf s.toList

/-- Emptiness test `not code or not code.strip()` in `execute_code`. -/
def isBlank (code : String) : Bool := code.toList.all Char.isWhitespace

/-- Marker appended by `_truncate`:
`f"\n... [truncated, {len(text)} total chars]"`. -/
def truncationMarker (total : Nat) : String :=
  "\n... [truncated, " ++ toString total ++ " total chars]"

/-- Output truncation (`executor.py`, `_truncate`). -/
def _truncate (text : String) (max_bytes : Nat) : String :=
  if text.length ≤ max_bytes then text
  else text.take max_bytes ++ truncationMarker text.length

/-- Bounded code preview used by `_record`:
`code[:120].replace("\n", "\\n")`, with `"..."` appended when the code
is longer than 120 characters. -/
def codePreview (code : String) : String :=
  if 120 < code.length then (code.take 120).replace "\n" "\\n" ++ "..."
  else (code.take 120).replace "\n" "\\n"

/-- History append (`executor.py`, `_record`): unconditionally appends
one `ExecutionRecord`; no cap of any kind is applied. -/
def _record (session : Session) (code status : String)
    (new_vars modified_vars : List String) (error : Option String)
    (now : Nat) : Session :=
  { session with
    history := session.history ++
      [{ timestamp := now, code_preview := codePreview code, status := status,
         new_vars := new_vars, modified_vars := modified_vars, error := error }] }

/-- Name filter of the reconciliation loop:
`key.startswith("_") or key in ("__builtins__", "result")`. -/
def isInternal (key : String) : Bool :=
  strStartsWith key "_" || key == "__builtins__" || key == "result"

/-- One iteration of the reconciliation loop in `execute_code`
(lines 177–185): skip internal names; a key absent from the session
namespace is recorded as new and persisted; a key bound to a different
object (`is not`, i.e. a different `ref`) is recorded as modified and
persisted; otherwise nothing happens.  The namespace component is the
session namespace as mutated so far by the loop. -/
def reconcileStep (st : NS × List String × List String) (kv : String × PyObj) :
    NS × List String × List String :=
  if isInternal kv.1 then st
  else
    match nsLookup st.1 kv.1 with
    | none => (nsSet st.1 kv.1 kv.2, st.2.1 ++ [kv.1], st.2.2)
    | some old =>
        if old.ref ≠ kv.2.ref then (nsSet st.1 kv.1 kv.2, st.2.1, st.2.2 ++ [kv.1])
        else st

/-- Whole reconciliation loop: fold of `reconcileStep` over the
post-execution namespace, starting from the session's namespace and
empty `new_vars` / `modified_vars` lists. -/
def reconcile (prior finalNs : NS) : NS × List String × List String :=
  List.foldl reconcileStep (prior, [], []) finalNs

/-- Per-user-variable summary (`session.py`, `Session.variable_summary`):
every binding whose name does not start with the underscore prefix,
mapped to its type name. -/
def variable_summary (s : Session) : List (String × String) :=
  (s.ns.filter (fun kv => !strStartsWith kv.1 "_")).map (fun kv => (kv.1, kv.2.ty))

/-- List-or-None convention of the completed `ExecutionResult`:
`new_vars or None`. -/
def orNone (l : List String) : Option (List String) :=
  if l = [] then none else some l

/-- Timeout message `f"Execution exceeded {config.timeout_seconds}s limit"`. -/
def timeoutMessage (timeout_seconds : Nat) : String :=
  "Execution exceeded " ++ toString timeout_seconds ++ "s limit"

/-- Remediation hint returned with a timeout. -/
def timeoutHint : String :=
  "Break your code into smaller chunks or increase REPL_TIMEOUT."

/-- Remediation hint returned with a syntax error. -/
def syntaxHint : String := "Check your Python syntax."

/-- Remediation hint returned with a name error; it enumerates the
currently available variable names. -/
def nameErrorHint (available : List String) : String :=
  "Variable not found. Variables persist by their ASSIGNED NAME, " ++
    "not through " ++ singleQuote ++ "result" ++ singleQuote ++ ". " ++
    "Use repl_list_namespace() to see available variables. " ++
    "Currently available: " ++ toString available

/-- Execution coordinator (`executor.py`, `execute_code`).  Blank code
is rejected before anything happens; otherwise the opaque `exec` call
is consulted (argument `outcome`) and its result is classified exactly
as in the source: timeout, `SyntaxError`, `NameError`, any other
runtime failure, or completion followed by namespace reconciliation.
Every non-blank submission appends exactly one history record. -/
def execute_code (code : String) (session : Session) (config : Config)
    (outcome : ExecOutcome) (now : Nat) : ExecutionResult × Session :=
  if isBlank code then
    ({ status := "error", error_type := some "ValueError",
       error_message := some "No code provided" }, session)
  else
    match outcome with
    | .timeout out err =>
        ({ status := "timeout", error_type := some "TimeoutError",
           error_message := some (timeoutMessage config.timeout_seconds),
           hint := some timeoutHint,
           stdout := _truncate out config.max_output_bytes,
           stderr := _truncate err config.max_output_bytes },
         _record session code "timeout" [] [] none now)
    | .syntaxErr msg lineno =>
        ({ status := "error", error_type := some "SyntaxError",
           error_message := some msg, error_line := lineno,
           hint := some syntaxHint },
         _record session code "error" [] [] (some msg) now)
    | .nameErr msg =>
        ({ status := "error", error_type := some "NameError",
           error_message := some msg,
           hint := some (nameErrorHint ((variable_summary session).map Prod.fst)) },
         _record session code "error" [] [] (some msg) now)
    | .runtimeErr ty msg tb out err =>
        ({ status := "error", error_type := some ty, error_message := some msg,
           error_traceback := some tb,
           stdout := _truncate out config.max_output_bytes,
           stderr := _truncate err config.max_output_bytes },
         _record session code "error" [] [] (some msg) now)
    | .ok finalNs out err =>
        let st := reconcile session.ns finalNs
        ({ status := "completed",
           result := nsLookup finalNs "result",
           stdout := _truncate out config.max_output_bytes,
           stderr := _truncate err config.max_output_bytes,
           new_vars := orNone st.2.1,
           modified_vars := orNone st.2.2 },
         _record { session with ns := st.1 } code "completed" st.2.1 st.2.2 none now)

/-- TTL test (`session.py`, `Session.is_expired`):
`now - last_used > timedelta(minutes=ttl_minutes)`, with instants in
minutes. -/
def is_expired (s : Session) (ttl_minutes now : Nat) : Bool :=
  decide (ttl_minutes < now - s.last_used)

/-- Session store (`session.py`, `SessionManager`): the registry dict
as an insertion-ordered list of sessions.  The lock only serializes
registry access and has no observable effect on the sequential
semantics modelled here. -/
structure SessionManager where
  config : Config
  sessions : List Session
deriving DecidableEq, Repr

/-- Lazy TTL sweep (`SessionManager._evict_expired`): delete every
expired session, keeping the others in order. -/
def _evict_expired (m : SessionManager) (now : Nat) : SessionManager :=
  { m with
    sessions := m.sessions.filter
      (fun s => !is_expired s m.config.session_ttl_minutes now) }

/-- Fold implementing Python's `min(..., key=lambda sid: last_used)`:
the running best is replaced only on a strictly smaller key, so the
first minimal element wins. -/
def minByLastUsedAux (best : Session) (l : List Session) : Session :=
  l.foldl (fun b s => if s.last_used < b.last_used then s else b) best

/-- Python's `min` over the registry keyed by `last_used` (`min` on an
empty registry raises, modelled as `none`). -/
def minByLastUsed : List Session → Option Session
  | [] => none
  | s :: rest => some (minByLastUsedAux s rest)

/-- Freshly created session: new id, empty namespace, empty history,
both timestamps set to now. -/
def newSession (newId : String) (now : Nat) : Session :=
  { session_id := newId, created_at := now, last_used := now, ns := [], history := [] }

/-- Capacity phase of `create_session`: when the registry still holds
at least the configured maximum, delete the entry that Python
`min(self._sessions, key=lambda sid: last_used)` designates. -/
def capacityEvict (m : SessionManager) : SessionManager :=
  if m.config.max_sessions ≤ m.sessions.length then
    match minByLastUsed m.sessions with
    | some oldest =>
        { m with
          sessions := m.sessions.eraseP
            (fun s => s.session_id == oldest.session_id) }
    | none => m
  else m

/-- Session creation (`SessionManager.create_session`): sweep expired
sessions, evict the least-recently-used session if the registry is
still at capacity, then insert a fresh session.  `newId` stands for the
generated `uuid4().hex[:12]`. -/
def create_session (m : SessionManager) (newId : String) (now : Nat) :
    SessionManager × Session :=
  ({ capacityEvict (_evict_expired m now) with
      sessions := (capacityEvict (_evict_expired m now)).sessions ++
        [newSession newId now] },
   newSession newId now)

/-- In-place `session.touch()` of the registry entry with the given id. -/
def touchAt (l : List Session) (id : String) (now : Nat) : List Session :=
  l.map (fun t => if t.session_id == id then { t with last_used := now } else t)

/-- Session lookup (`SessionManager.get_session`): nothing for an
unknown id; an expired session is deleted as a side effect and nothing
is returned; a live session is touched and returned. -/
def get_session (m : SessionManager) (id : String) (now : Nat) :
    SessionManager × Option Session :=
  match m.sessions.find? (fun s => s.session_id == id) with
  | none => (m, none)
  | some s =>
      if is_expired s m.config.session_ttl_minutes now then
        ({ m with sessions := m.sessions.eraseP (fun t => t.session_id == id) }, none)
      else
        ({ m with sessions := touchAt m.sessions id now },
         some { s with last_used := now })

/-- Session deletion (`SessionManager.delete_session`). -/
def delete_session (m : SessionManager) (id : String) : SessionManager × Bool :=
  match m.sessions.find? (fun s => s.session_id == id) with
  | none => (m, false)
  | some _ =>
      ({ m with sessions := m.sessions.eraseP (fun s => s.session_id == id) }, true)

/-- Snapshot summary returned by `list_sessions`. -/
structure SessionSummary where
  session_id : String
  created_at : Nat
  last_used : Nat
  variable_count : Nat
  history_count : Nat
deriving DecidableEq, Repr

/-- Summary of one session as rendered by `list_sessions`. -/
def sessionSummary (s : Session) : SessionSummary :=
  { session_id := s.session_id, created_at := s.created_at,
    last_used := s.last_used, variable_count := (variable_summary s).length,
    history_count := s.history.length }

/-- Session listing (`SessionManager.list_sessions`): sweep expired
sessions first, then return a snapshot summary of every remaining
session. -/
def list_sessions (m : SessionManager) (now : Nat) :
    SessionManager × List SessionSummary :=
  (_evict_expired m now, (_evict_expired m now).sessions.map sessionSummary)

/-- Namespace effect of the `repl_set_variable` tool (`server.py`):
`session.namespace[params.var_name] = value`, with no filtering of the
variable name.  The JSON parse of the payload only determines the
stored object and is abstracted into the `value` argument. -/
def repl_set_variable (session : Session) (var_name : String) (value : PyObj) :
    Session :=
  { session with ns := nsSet session.ns var_name value }

/-- Namespace effect of the `repl_delete_variable` tool (`server.py`):
`del session.namespace[params.var_name]` when the name is present. -/
def repl_delete_variable (session : Session) (var_name : String) : Session :=
  { session with ns := session.ns.eraseP (fun kv => kv.1 == var_name) }

/-- Namespace effect of the `repl_clear_namespace` tool (`server.py`):
`session.namespace.clear()`. -/
def repl_clear_namespace (session : Session) : Session :=
  { session with ns := [] }

/-- File-identity injection performed by `repl_run_file` (`server.py`,
line 268): `session.namespace["__file__"] = file_path` directly on the
persisted namespace, before delegating to `execute_code`. -/
def run_file_inject (session : Session) (fileObj : PyObj) : Session :=
  { session with ns := nsSet session.ns "__file__" fileObj }

/-- Session effect of the `repl_run_file` tool (`server.py`): inject
`__file__`, then execute the file's code in the session. -/
def repl_run_file (session : Session) (fileObj : PyObj) (code : String)
    (config : Config) (outcome : ExecOutcome) (now : Nat) :
    ExecutionResult × Session :=
  execute_code code (run_file_inject session fileObj) config outcome now

/-- Specification-side classification of one post-execution binding
relative to a prior namespace: `some true` = new, `some false` =
modified, `none` = skipped or unchanged. -/
def classify (prior : NS) (k : String) (v : PyObj) : Option Bool :=
  if isInternal k then none
  else
    match nsLookup prior k with
    | none => some true
    | some old => if old.ref ≠ v.ref then some false else none

/-- Sample object: an `int` with identity 1. -/
def objA : PyObj := { ref := 1, ty := "int", payload := "1" }

/-- Sample object: a distinct `int` object with the same value as
`objA` (different identity, equal payload). -/
def objB : PyObj := { ref := 2, ty := "int", payload := "1" }

/-- Sample object: an `int` with identity 3. -/
def objC : PyObj := { ref := 3, ty := "int", payload := "7" }

/-- Sample empty session. -/
def sess0 : Session :=
  { session_id := "s0", created_at := 0, last_used := 0, ns := [], history := [] }

/-- Sample configuration with the source defaults. -/
def cfg0 : Config := {}

/-- Sample configuration whose history cap is one entry. -/
def cfgLog1 : Config := { max_log_entries := 1 }

/-- Sample session created at instant 0 and last used at instant 5. -/
def sessA : Session :=
  { session_id := "aaa", created_at := 0, last_used := 5, ns := [], history := [] }

/-- Sample session created at instant 1 and last used at instant 3, so
it is the least-recently-used of `sessA` / `sessB`. -/
def sessB : Session :=
  { session_id := "bbb", created_at := 1, last_used := 3, ns := [], history := [] }

/-- Sample session store at its capacity of two sessions. -/
def mgr2 : SessionManager :=
  { config := { max_sessions := 2 }, sessions := [sessA, sessB] }

/-- Sample session holding two bindings `a ↦ objA` and `c ↦ objC`. -/
def sessC : Session :=
  { session_id := "sc", created_at := 0, last_used := 0,
    ns := [("a", objA), ("c", objC)], history := [] }

/-- Sample post-execution namespace: `a` rebound to the equal-valued but
distinct object `objB`, `b` freshly bound, `c` left bound to the same
object. -/
def finalC : NS := [("a", objB), ("b", objC), ("c", objC)]

/-! Basic dictionary lemmas. -/

/-- Looking up the key just assigned returns the assigned value. -/
theorem nsLookup_set_self (ns : NS) (k : String) (v : PyObj) :
    nsLookup (nsSet ns k v) k = some v := by
  induction ns with
  | nil => simp [nsSet, nsLookup]
  | cons kv rest ih =>
      by_cases h : kv.1 = k
      · simp [nsSet, h, nsLookup]
      · simp [nsSet, h, nsLookup, ih]

/-- Assignment at one key leaves every other key's lookup unchanged. -/
theorem nsLookup_set_ne (ns : NS) (k kq : String) (v : PyObj) (h : kq ≠ k) :
    nsLookup (nsSet ns k v) kq = nsLookup ns kq := by
  induction ns with
  | nil => simp [nsSet, nsLookup, Ne.symm h]
  | cons kv rest ih =>
      by_cases hk : kv.1 = k
      · simp [nsSet, hk, nsLookup, Ne.symm h]
      · simp [nsSet, hk, nsLookup, ih]

/-! Classification lemmas. -/

/-- Internal and reserved names are never classified. -/
theorem classify_internal (p : NS) (k : String) (v : PyObj)
    (h : isInternal k = true) : classify p k v = none := by
  simp [classify, h]

/-- A classified binding has a non-internal name. -/
theorem classify_some_not_internal {p : NS} {k : String} {v : PyObj} {b : Bool}
    (h : classify p k v = some b) : isInternal k = false := by
  cases hi : isInternal k
  · rfl
  · rw [classify_internal p k v hi] at h
    exact Option.noConfusion h

/-- Classification only inspects the prior value bound to the name. -/
theorem classify_congr {p q : NS} (k : String) (v : PyObj)
    (h : nsLookup p k = nsLookup q k) : classify p k v = classify q k v := by
  unfold classify
  rw [h]

/-- The loop body acts exactly according to the classification of the
binding against the namespace accumulated so far. -/
theorem reconcileStep_eq (st : NS × List String × List String) (kv : String × PyObj) :
    reconcileStep st kv =
      match classify st.1 kv.1 kv.2 with
      | none => st
      | some true => (nsSet st.1 kv.1 kv.2, st.2.1 ++ [kv.1], st.2.2)
      | some false => (nsSet st.1 kv.1 kv.2, st.2.1, st.2.2 ++ [kv.1]) := by
  cases hi : isInternal kv.1
  · cases h : nsLookup st.1 kv.1 with
    | none => simp [reconcileStep, classify, hi, h]
    | some old =>
        by_cases hr : old.ref = kv.2.ref
        · simp [reconcileStep, classify, hi, h, hr]
        · simp [reconcileStep, classify, hi, h, hr]
  · simp [reconcileStep, classify, hi]

/-- Folding the loop over any list never changes the namespace at an
internal or reserved name. -/
theorem foldl_reconcileStep_internal (finalNs : NS) :
    ∀ (st : NS × List String × List String) (k : String), isInternal k = true →
      nsLookup (List.foldl reconcileStep st finalNs).1 k = nsLookup st.1 k := by
  induction finalNs with
  | nil => intro st k _; rfl
  | cons kv rest ih =>
      intro st k hk
      rw [List.foldl_cons, ih _ k hk, reconcileStep_eq]
      cases hc : classify st.1 kv.1 kv.2 with
      | none => rfl
      | some b =>
          have hni : isInternal kv.1 = false := classify_some_not_internal hc
          have hne : k ≠ kv.1 := by
            intro he
            rw [he, hni] at hk
            exact Bool.noConfusion hk
          cases b
          · exact nsLookup_set_ne _ _ _ _ hne
          · exact nsLookup_set_ne _ _ _ _ hne

/-- The loop body leaves lookup and reported membership of every other
name unchanged. -/
theorem reconcileStep_other (st : NS × List String × List String)
    (hd : String × PyObj) (k : String) (hne : k ≠ hd.1) :
    nsLookup (reconcileStep st hd).1 k = nsLookup st.1 k ∧
    (k ∈ (reconcileStep st hd).2.1 ↔ k ∈ st.2.1) ∧
    (k ∈ (reconcileStep st hd).2.2 ↔ k ∈ st.2.2) := by
  rw [reconcileStep_eq]
  cases hc : classify st.1 hd.1 hd.2 with
  | none => exact ⟨rfl, Iff.rfl, Iff.rfl⟩
  | some b =>
      cases b
      · exact ⟨nsLookup_set_ne _ _ _ _ hne, Iff.rfl, by simp [hne]⟩
      · exact ⟨nsLookup_set_ne _ _ _ _ hne, by simp [hne], Iff.rfl⟩

/-- Folding the loop over a list not containing a name leaves that
name's lookup and reported membership unchanged. -/
theorem foldl_reconcileStep_not_mem (finalNs : NS) :
    ∀ (st : NS × List String × List String) (k : String), k ∉ nsKeys finalNs →
      nsLookup (List.foldl reconcileStep st finalNs).1 k = nsLookup st.1 k ∧
      (k ∈ (List.foldl reconcileStep st finalNs).2.1 ↔ k ∈ st.2.1) ∧
      (k ∈ (List.foldl reconcileStep st finalNs).2.2 ↔ k ∈ st.2.2) := by
  induction finalNs with
  | nil => intro st k _; exact ⟨rfl, Iff.rfl, Iff.rfl⟩
  | cons hd rest ih =>
      intro st k hk
      have hne : k ≠ hd.1 := by
        intro he
        exact hk (by simp [nsKeys, he])
      have hk2 : k ∉ nsKeys rest := by
        intro he
        exact hk (by simp [nsKeys] at he ⊢; exact Or.inr he)
      rw [List.foldl_cons]
      obtain ⟨h1, h2, h3⟩ := ih (reconcileStep st hd) k hk2
      obtain ⟨g1, g2, g3⟩ := reconcileStep_other st hd k hne
      exact ⟨h1.trans g1, h2.trans g2, h3.trans g3⟩

/-- Per-binding characterisation of the reconciliation fold: on a
duplicate-free post-execution namespace, each non-internal binding is
reported new exactly when absent from the starting namespace, reported
modified exactly when bound to a different object, and its persisted
value is updated accordingly. -/
theorem foldl_reconcileStep_mem (finalNs : NS) :
    ∀ (st : NS × List String × List String) (kv : String × PyObj),
      kv ∈ finalNs → (nsKeys finalNs).Nodup →
      ((kv.1 ∈ (List.foldl reconcileStep st finalNs).2.1 ↔
          (kv.1 ∈ st.2.1 ∨ classify st.1 kv.1 kv.2 = some true)) ∧
       (kv.1 ∈ (List.foldl reconcileStep st finalNs).2.2 ↔
          (kv.1 ∈ st.2.2 ∨ classify st.1 kv.1 kv.2 = some false)) ∧
       nsLookup (List.foldl reconcileStep st finalNs).1 kv.1 =
         (if classify st.1 kv.1 kv.2 = none then nsLookup st.1 kv.1 else some kv.2)) := by
  induction finalNs with
  | nil => intro st kv h _; cases h
  | cons hd rest ih =>
      intro st kv hmem hnd
      have hnd' : (hd.1 :: nsKeys rest).Nodup := hnd
      have hhd : hd.1 ∉ nsKeys rest := (List.nodup_cons.mp hnd').1
      have hndr : (nsKeys rest).Nodup := (List.nodup_cons.mp hnd').2
      rw [List.foldl_cons]
      rcases List.mem_cons.mp hmem with heq | hmemr
      · subst heq
        cases hc : classify st.1 kv.1 kv.2 with
        | none =>
            have hstep : reconcileStep st kv = st := by rw [reconcileStep_eq, hc]
            rw [hstep]
            obtain ⟨h1, h2, h3⟩ := foldl_reconcileStep_not_mem rest st kv.1 hhd
            exact ⟨h2.trans (by simp [hc]), h3.trans (by simp [hc]),
              h1.trans (by simp [hc])⟩
        | some b =>
            cases b
            · have hstep : reconcileStep st kv =
                  (nsSet st.1 kv.1 kv.2, st.2.1, st.2.2 ++ [kv.1]) := by
                rw [reconcileStep_eq, hc]
              rw [hstep]
              obtain ⟨h1, h2, h3⟩ :=
                foldl_reconcileStep_not_mem rest
                  (nsSet st.1 kv.1 kv.2, st.2.1, st.2.2 ++ [kv.1]) kv.1 hhd
              exact ⟨h2.trans (by simp [hc]), h3.trans (by simp),
                h1.trans (by simp [nsLookup_set_self])⟩
            · have hstep : reconcileStep st kv =
                  (nsSet st.1 kv.1 kv.2, st.2.1 ++ [kv.1], st.2.2) := by
                rw [reconcileStep_eq, hc]
              rw [hstep]
              obtain ⟨h1, h2, h3⟩ :=
                foldl_reconcileStep_not_mem rest
                  (nsSet st.1 kv.1 kv.2, st.2.1 ++ [kv.1], st.2.2) kv.1 hhd
              exact ⟨h2.trans (by simp), h3.trans (by simp [hc]),
                h1.trans (by simp [nsLookup_set_self])⟩
      · have hne : kv.1 ≠ hd.1 := by
          intro he
          exact hhd (he ▸ List.mem_map_of_mem Prod.fst hmemr)
        obtain ⟨g1, g2, g3⟩ := reconcileStep_other st hd kv.1 hne
        have hcls : classify (reconcileStep st hd).1 kv.1 kv.2 =
            classify st.1 kv.1 kv.2 := classify_congr kv.1 kv.2 g1
        obtain ⟨i1, i2, i3⟩ := ih (reconcileStep st hd) kv hmemr hndr
        rw [hcls, g2] at i1
        rw [hcls, g3] at i2
        rw [hcls, g1] at i3
        exact ⟨i1, i2, i3⟩

/-! Shape of a completed execution. -/

/-- The list-or-None convention round-trips to the underlying list. -/
theorem orNone_getD (l : List String) : (orNone l).getD [] = l := by
  by_cases h : l = [] <;> simp [orNone, h]

/-- Completed branch of `execute_code`, fully expanded. -/
theorem execute_code_ok_eq (code : String) (session : Session) (config : Config)
    (finalNs : NS) (out err : String) (now : Nat) (hb : isBlank code = false) :
    execute_code code session config (ExecOutcome.ok finalNs out err) now =
      ({ status := "completed",
         result := nsLookup finalNs "result",
         stdout := _truncate out config.max_output_bytes,
         stderr := _truncate err config.max_output_bytes,
         new_vars := orNone (reconcile session.ns finalNs).2.1,
         modified_vars := orNone (reconcile session.ns finalNs).2.2 },
       _record { session with ns := (reconcile session.ns finalNs).1 } code
         "completed" (reconcile session.ns finalNs).2.1
         (reconcile session.ns finalNs).2.2 none now) := by
  simp [execute_code, hb]

/-- Reported new-variable list of a completed execution. -/
theorem execute_code_ok_new_vars (code : String) (session : Session)
    (config : Config) (finalNs : NS) (out err : String) (now : Nat)
    (hb : isBlank code = false) :
    ((execute_code code session config (ExecOutcome.ok finalNs out err) now).1.new_vars).getD [] =
      (reconcile session.ns finalNs).2.1 := by
  rw [execute_code_ok_eq code session config finalNs out err now hb]
  exact orNone_getD _

/-- Reported modified-variable list of a completed execution. -/
theorem execute_code_ok_modified_vars (code : String) (session : Session)
    (config : Config) (finalNs : NS) (out err : String) (now : Nat)
    (hb : isBlank code = false) :
    ((execute_code code session config (ExecOutcome.ok finalNs out err) now).1.modified_vars).getD [] =
      (reconcile session.ns finalNs).2.2 := by
  rw [execute_code_ok_eq code session config finalNs out err now hb]
  exact orNone_getD _

/-- Persisted namespace after a completed execution. -/
theorem execute_code_ok_ns (code : String) (session : Session)
    (config : Config) (finalNs : NS) (out err : String) (now : Nat)
    (hb : isBlank code = false) :
    (execute_code code session config (ExecOutcome.ok finalNs out err) now).2.ns =
      (reconcile session.ns finalNs).1 := by
  rw [execute_code_ok_eq code session config finalNs out err now hb]
  rfl

/-! Claim theorems. -/

/-- C1 (counterexample): the claimed invariant is false as stated.  The
public operation `repl_set_variable` stores the reserved name `result`
directly into the persisted namespace, and the public operation
`repl_run_file` persists the internal binding `__file__`, which even a
subsequent completed execution leaves in place. -/
theorem set_variable_persists_reserved_name :
    nsLookup (repl_set_variable sess0 "result" objA).ns "result" = some objA ∧
    nsLookup (repl_run_file sess0 objB "x = 1" cfg0
        (ExecOutcome.ok [] "" "") 0).2.ns "__file__" = some objB := by
  constructor
  · decide
  · decide

/-- C1 (amended): `execute_code` itself never adds or changes a binding
named `result` or beginning with the reserved prefix: the persisted
namespace at every such name is exactly what it was before the call,
whatever the outcome.  (The original universal claim fails because
`repl_run_file` persists `__file__` and `repl_set_variable` persists
arbitrary names, including `result` and underscore-prefixed ones.) -/
theorem execute_code_never_adds_reserved (code : String) (session : Session)
    (config : Config) (outcome : ExecOutcome) (now : Nat) (k : String)
    (hk : strStartsWith k "_" = true ∨ k = "result") :
    nsLookup (execute_code code session config outcome now).2.ns k =
      nsLookup session.ns k := by
  have hki : isInternal k = true := by
    rcases hk with h | h
    · simp [isInternal, h]
    · rw [h]; decide
  cases hb : isBlank code
  · cases outcome with
    | ok finalNs out err =>
        rw [execute_code_ok_ns code session config finalNs out err now hb]
        exact foldl_reconcileStep_internal finalNs (session.ns, [], []) k hki
    | timeout out err => simp [execute_code, hb, _record]
    | syntaxErr msg lineno => simp [execute_code, hb, _record]
    | nameErr msg => simp [execute_code, hb, _record]
    | runtimeErr ty msg tb out err => simp [execute_code, hb, _record]
  · simp [execute_code, hb]

/-- C1 (witness): concrete instantiation of the amended theorem — an
execution that tries to bind `result` and `_tmp` leaves both absent
from the persisted namespace. -/
theorem execute_code_never_adds_reserved_witness :
    nsLookup (execute_code "result = 1" sess0 cfg0
        (ExecOutcome.ok [("result", objA), ("_tmp", objB)] "" "") 0).2.ns "result" =
      nsLookup sess0.ns "result" ∧
    nsLookup (execute_code "result = 1" sess0 cfg0
        (ExecOutcome.ok [("result", objA), ("_tmp", objB)] "" "") 0).2.ns "_tmp" =
      nsLookup sess0.ns "_tmp" :=
  ⟨execute_code_never_adds_reserved "result = 1" sess0 cfg0
      (ExecOutcome.ok [("result", objA), ("_tmp", objB)] "" "") 0 "result"
      (Or.inr rfl),
   execute_code_never_adds_reserved "result = 1" sess0 cfg0
      (ExecOutcome.ok [("result", objA), ("_tmp", objB)] "" "") 0 "_tmp"
      (Or.inl (by decide))⟩

/-- C3: whenever an execution does not complete — blank input, parse or
name failure, sandbox denial or any runtime failure (all surfacing as
the error outcomes), or a timeout — the session's persisted namespace
bindings are exactly what they were before the call: no partial
reconciliation ever happens and a timed-out execution's mutations are
never applied. -/
theorem execute_code_failure_preserves_namespace (code : String)
    (session : Session) (config : Config) (outcome : ExecOutcome) (now : Nat)
    (h : (execute_code code session config outcome now).1.status ≠ "completed") :
    (execute_code code session config outcome now).2.ns = session.ns := by
  cases hb : isBlank code
  · cases outcome with
    | ok finalNs out err =>
        exact absurd (by simp [execute_code, hb]) h
    | timeout out err => simp [execute_code, hb, _record]
    | syntaxErr msg lineno => simp [execute_code, hb, _record]
    | nameErr msg => simp [execute_code, hb, _record]
    | runtimeErr ty msg tb out err => simp [execute_code, hb, _record]
  · simp [execute_code, hb]

/-- C3 (witness): a concrete timed-out execution leaves the namespace
untouched. -/
theorem execute_code_failure_preserves_namespace_witness :
    (execute_code "while True: pass" sessC cfg0
        (ExecOutcome.timeout "" "") 0).2.ns = sessC.ns :=
  execute_code_failure_preserves_namespace "while True: pass" sessC cfg0
    (ExecOutcome.timeout "" "") 0 (by decide)

/-- C5: empty or whitespace-only code fails immediately with an
input-validation error and the session — history included — is
completely untouched; every non-blank submission appends exactly one
history record, whatever the outcome. -/
theorem execute_code_history_append (code : String) (session : Session)
    (config : Config) (outcome : ExecOutcome) (now : Nat) :
    (isBlank code = true →
      (execute_code code session config outcome now).2 = session ∧
      (execute_code code session config outcome now).1.status = "error" ∧
      (execute_code code session config outcome now).1.error_type =
        some "ValueError") ∧
    (isBlank code = false →
      (execute_code code session config outcome now).2.history.length =
        session.history.length + 1) := by
  constructor
  · intro hb
    refine ⟨?_, ?_, ?_⟩ <;> simp [execute_code, hb]
  · intro hb
    cases outcome <;> simp [execute_code, hb, _record]

/-- C5 (witness): whitespace-only code leaves the session untouched; a
non-empty submission appends exactly one history record. -/
theorem execute_code_history_append_witness :
    (execute_code "  " sess0 cfg0 (ExecOutcome.ok [] "" "") 0).2 = sess0 ∧
    (execute_code "x = 1" sess0 cfg0
        (ExecOutcome.ok [("x", objA)] "" "") 0).2.history.length =
      sess0.history.length + 1 :=
  ⟨((execute_code_history_append "  " sess0 cfg0
      (ExecOutcome.ok [] "" "") 0).1 (by decide)).1,
   (execute_code_history_append "x = 1" sess0 cfg0
      (ExecOutcome.ok [("x", objA)] "" "") 0).2 (by decide)⟩

/-- C2: classification of a completed execution's bindings.  A
non-internal binding of the post-execution namespace is reported new
when its name was absent from the prior namespace; reported modified
when the name was present but now refers to an object with a different
identity (in particular when rebound to a distinct but equal-valued
object); and reported neither new nor modified when the name is still
bound to the very same object, whatever in-place mutation that object
underwent. -/
theorem execute_code_classification (code : String) (session : Session)
    (config : Config) (finalNs : NS) (out err : String) (now : Nat)
    (kv : String × PyObj) (hb : isBlank code = false)
    (hnd : (nsKeys finalNs).Nodup) (hmem : kv ∈ finalNs)
    (hni : isInternal kv.1 = false) :
    (nsLookup session.ns kv.1 = none →
      kv.1 ∈ ((execute_code code session config
        (ExecOutcome.ok finalNs out err) now).1.new_vars).getD []) ∧
    (∀ old, nsLookup session.ns kv.1 = some old → old.ref ≠ kv.2.ref →
      kv.1 ∈ ((execute_code code session config
        (ExecOutcome.ok finalNs out err) now).1.modified_vars).getD []) ∧
    (∀ old, nsLookup session.ns kv.1 = some old → old.ref = kv.2.ref →
      kv.1 ∉ ((execute_code code session config
        (ExecOutcome.ok finalNs out err) now).1.new_vars).getD [] ∧
      kv.1 ∉ ((execute_code code session config
        (ExecOutcome.ok finalNs out err) now).1.modified_vars).getD []) := by
  rw [execute_code_ok_new_vars code session config finalNs out err now hb,
      execute_code_ok_modified_vars code session config finalNs out err now hb]
  obtain ⟨m1, m2, m3⟩ :=
    foldl_reconcileStep_mem finalNs (session.ns, [], []) kv hmem hnd
  simp only [List.not_mem_nil, false_or] at m1 m2
  refine ⟨?_, ?_, ?_⟩
  · intro hno
    exact m1.mpr (by simp [classify, hni, hno])
  · intro old hold hne
    exact m2.mpr (by simp [classify, hni, hold, hne])
  · intro old hold heq
    have hcn : classify session.ns kv.1 kv.2 = none := by
      simp [classify, hni, hold, heq]
    constructor
    · intro hx
      have hcontra := m1.mp hx
      rw [hcn] at hcontra
      exact Option.noConfusion hcontra
    · intro hx
      have hcontra := m2.mp hx
      rw [hcn] at hcontra
      exact Option.noConfusion hcontra

/-- C2 (witness): with prior bindings `a ↦ objA`, `c ↦ objC` and
post-execution namespace `a ↦ objB` (same value, new identity),
`b ↦ objC` (new), `c ↦ objC` (same object): `b` is reported new, `a`
is reported modified, and `c` is reported neither. -/
theorem execute_code_classification_witness :
    "b" ∈ ((execute_code "x" sessC cfg0
      (ExecOutcome.ok finalC "" "") 0).1.new_vars).getD [] ∧
    "a" ∈ ((execute_code "x" sessC cfg0
      (ExecOutcome.ok finalC "" "") 0).1.modified_vars).getD [] ∧
    "c" ∉ ((execute_code "x" sessC cfg0
      (ExecOutcome.ok finalC "" "") 0).1.new_vars).getD [] ∧
    "c" ∉ ((execute_code "x" sessC cfg0
      (ExecOutcome.ok finalC "" "") 0).1.modified_vars).getD [] :=
  ⟨(execute_code_classification "x" sessC cfg0 finalC "" "" 0 ("b", objC)
      (by decide) (by decide) (by decide) (by decide)).1 (by decide),
   (execute_code_classification "x" sessC cfg0 finalC "" "" 0 ("a", objB)
      (by decide) (by decide) (by decide) (by decide)).2.1 objA (by decide) (by decide),
   ((execute_code_classification "x" sessC cfg0 finalC "" "" 0 ("c", objC)
      (by decide) (by decide) (by decide) (by decide)).2.2 objC (by decide) rfl).1,
   ((execute_code_classification "x" sessC cfg0 finalC "" "" 0 ("c", objC)
      (by decide) (by decide) (by decide) (by decide)).2.2 objC (by decide) rfl).2⟩

/-- C10: frame property of a completed execution.  Bindings with
internal or reserved names (underscore prefix, `__builtins__`,
`result`) are never written to the persisted namespace; the reported
new/modified lists contain only non-internal names; and every name
outside those lists keeps exactly its prior binding — the reported
names are the only ones the call changes. -/
theorem execute_code_frame (code : String) (session : Session)
    (config : Config) (finalNs : NS) (out err : String) (now : Nat)
    (hb : isBlank code = false) (hnd : (nsKeys finalNs).Nodup) :
    (∀ k, isInternal k = true →
      nsLookup (execute_code code session config
        (ExecOutcome.ok finalNs out err) now).2.ns k = nsLookup session.ns k) ∧
    (∀ k, (k ∈ ((execute_code code session config
          (ExecOutcome.ok finalNs out err) now).1.new_vars).getD [] ∨
        k ∈ ((execute_code code session config
          (ExecOutcome.ok finalNs out err) now).1.modified_vars).getD []) →
      isInternal k = false) ∧
    (∀ k, k ∉ ((execute_code code session config
        (ExecOutcome.ok finalNs out err) now).1.new_vars).getD [] →
      k ∉ ((execute_code code session config
        (ExecOutcome.ok finalNs out err) now).1.modified_vars).getD [] →
      nsLookup (execute_code code session config
        (ExecOutcome.ok finalNs out err) now).2.ns k = nsLookup session.ns k) := by
  rw [execute_code_ok_new_vars code session config finalNs out err now hb,
      execute_code_ok_modified_vars code session config finalNs out err now hb,
      execute_code_ok_ns code session config finalNs out err now hb]
  refine ⟨?_, ?_, ?_⟩
  · intro k hk
    exact foldl_reconcileStep_internal finalNs (session.ns, [], []) k hk
  · intro k hk
    by_cases hkey : k ∈ nsKeys finalNs
    · obtain ⟨kv, hkv, hfst⟩ := List.mem_map.mp hkey
      subst hfst
      obtain ⟨m1, m2, m3⟩ :=
        foldl_reconcileStep_mem finalNs (session.ns, [], []) kv hkv hnd
      simp only [List.not_mem_nil, false_or] at m1 m2
      rcases hk with h | h
      · exact classify_some_not_internal (m1.mp h)
      · exact classify_some_not_internal (m2.mp h)
    · obtain ⟨h1, h2, h3⟩ :=
        foldl_reconcileStep_not_mem finalNs (session.ns, [], []) k hkey
      rcases hk with h | h
      · exact absurd (h2.mp h) (List.not_mem_nil k)
      · exact absurd (h3.mp h) (List.not_mem_nil k)
  · intro k hk1 hk2
    by_cases hkey : k ∈ nsKeys finalNs
    · obtain ⟨kv, hkv, hfst⟩ := List.mem_map.mp hkey
      subst hfst
      obtain ⟨m1, m2, m3⟩ :=
        foldl_reconcileStep_mem finalNs (session.ns, [], []) kv hkv hnd
      simp only [List.not_mem_nil, false_or] at m1 m2 m3
      have hcn : classify session.ns kv.1 kv.2 = none := by
        cases hc : classify session.ns kv.1 kv.2 with
        | none => rfl
        | some b =>
            cases b
            · exact absurd (m2.mpr hc) hk2
            · exact absurd (m1.mpr hc) hk1
      rw [hcn] at m3
      simpa using m3
    · exact (foldl_reconcileStep_not_mem finalNs (session.ns, [], []) k hkey).1

/-- C10 (witness): in the concrete completed execution of the C2
scenario, an internal name keeps its prior (absent) binding, and a name
outside the reported lists keeps its prior binding. -/
theorem execute_code_frame_witness :
    nsLookup (execute_code "x" sessC cfg0
      (ExecOutcome.ok finalC "" "") 0).2.ns "__file__" =
      nsLookup sessC.ns "__file__" ∧
    nsLookup (execute_code "x" sessC cfg0
      (ExecOutcome.ok finalC "" "") 0).2.ns "z" = nsLookup sessC.ns "z" :=
  ⟨(execute_code_frame "x" sessC cfg0 finalC "" "" 0 (by decide) (by decide)).1
      "__file__" (by decide),
   (execute_code_frame "x" sessC cfg0 finalC "" "" 0 (by decide) (by decide)).2.2
      "z" (by decide) (by decide)⟩

/-- C7: captured-output truncation.  Text within the configured budget
is returned unchanged; longer text is hard-truncated at the boundary
with the marker stating the original length appended, and the marker
itself is never split (it appears whole as a suffix); the returned
value of a completed execution is taken from the namespace as-is, never
truncated. -/
theorem truncate_spec (text : String) (m : Nat) :
    (text.length ≤ m → _truncate text m = text) ∧
    (m < text.length →
      _truncate text m = text.take m ++ truncationMarker text.length ∧
      ∃ p, _truncate text m = p ++ truncationMarker text.length) ∧
    (∀ (code : String) (session : Session) (config : Config) (finalNs : NS)
        (out err : String) (now : Nat), isBlank code = false →
      (execute_code code session config (ExecOutcome.ok finalNs out err) now).1.result =
        nsLookup finalNs "result") := by
  refine ⟨?_, ?_, ?_⟩
  · intro h
    simp [_truncate, h]
  · intro h
    have hn : ¬text.length ≤ m := Nat.not_le.mpr h
    exact ⟨by simp [_truncate, hn], text.take m, by simp [_truncate, hn]⟩
  · intro code session config finalNs out err now hb
    rw [execute_code_ok_eq code session config finalNs out err now hb]

/-- C7 (witness): a short text passes through unchanged; a long text is
truncated at the boundary with the intact marker appended; a concrete
returned value comes back untruncated from the namespace. -/
theorem truncate_spec_witness :
    _truncate "ab" 3 = "ab" ∧
    _truncate "abcdef" 3 = "abcdef".take 3 ++ truncationMarker "abcdef".length ∧
    (execute_code "x" sess0 cfg0
      (ExecOutcome.ok [("result", objC)] "" "") 0).1.result = some objC :=
  ⟨(truncate_spec "ab" 3).1 (by decide),
   ((truncate_spec "abcdef" 3).2.1 (by decide)).1,
   ((truncate_spec "x" 0).2.2 "x" sess0 cfg0 [("result", objC)] "" "" 0
      (by decide)).trans (by decide)⟩

/-- C4: the sandbox denylist entry `http.server` is unreachable.  The
configuration lists `http.server` among the blocked modules, but the
sandboxed import compares only the top-level component of the dotted
name (`"http"` for `import http.server`), which is not in the denylist,
so importing `http.server` under sandbox mode is never blocked.  For a
genuinely top-level denylist entry such as `subprocess` the denial does
fire, naming the module and enumerating the full sorted blocked set
(including the dead `http.server` entry), and with the sandbox disabled
the policy is never applied at all. -/
theorem sandbox_denylist_http_server_unreachable :
    "http.server" ∈ SANDBOXED_BLOCKED_MODULES ∧
    topLevelOf "http.server" = "http" ∧
    _restricted_import "http.server" = Except.ok () ∧
    _restricted_import "subprocess" =
      Except.error (importBlockedMessage "subprocess") ∧
    blockedModulesEnumeration =
      "antigravity, ctypes, ftplib, http.server, shutil, smtplib, socket, " ++
        "subprocess, telnetlib, webbrowser, xmlrpc" ∧
    (∀ name, importCheck false name = Except.ok ()) := by
  refine ⟨by decide, by decide, ?_, ?_, by decide, fun name => rfl⟩
  · rfl
  · rfl

/-- C6: the configured history cap is never enforced.  With a
configuration whose maximum history length is one entry, two non-empty
submissions leave two records in the session history: `_record` appends
unconditionally and `max_log_entries` is read nowhere in the code. -/
theorem history_cap_never_enforced :
    cfgLog1.max_log_entries = 1 ∧
    (execute_code "y = 2"
        (execute_code "x = 1" sess0 cfgLog1 (ExecOutcome.ok [("x", objA)] "" "") 0).2
        cfgLog1 (ExecOutcome.ok [("y", objB)] "" "") 1).2.history.length = 2 :=
  ⟨rfl, by decide⟩

/-! Session-store lemmas. -/

/-- Specification of the first-minimal fold implementing Python's
`min` keyed by `last_used`: the result is a member, its key is minimal
over seed and list, it equals the seed unless strictly better, and —
when seed and list are strictly sorted by creation time — it has the
earliest creation time among all entries tied on the minimal key. -/
theorem minByLastUsedAux_spec (l : List Session) :
    ∀ b0 : Session,
      List.Pairwise (fun a b => a.created_at < b.created_at) (b0 :: l) →
      (minByLastUsedAux b0 l ∈ b0 :: l ∧
       (∀ s ∈ b0 :: l, (minByLastUsedAux b0 l).last_used ≤ s.last_used) ∧
       (minByLastUsedAux b0 l = b0 ∨
         (minByLastUsedAux b0 l).last_used < b0.last_used) ∧
       (∀ s ∈ b0 :: l, s.last_used = (minByLastUsedAux b0 l).last_used →
         (minByLastUsedAux b0 l).created_at ≤ s.created_at)) := by
  induction l with
  | nil =>
      intro b0 _
      refine ⟨List.mem_cons_self b0 [], ?_, Or.inl rfl, ?_⟩
      · intro s hs
        rcases List.mem_cons.mp hs with h | h
        · subst h; exact le_refl _
        · cases h
      · intro s hs _
        rcases List.mem_cons.mp hs with h | h
        · subst h; exact le_refl _
        · cases h
  | cons s0 rest ih =>
      intro b0 hp
      have hps : List.Pairwise (fun a b => a.created_at < b.created_at) (s0 :: rest) :=
        (List.pairwise_cons.mp hp).2
      have hb0 : ∀ t ∈ s0 :: rest, b0.created_at < t.created_at :=
        (List.pairwise_cons.mp hp).1
      have hunfold : minByLastUsedAux b0 (s0 :: rest) =
          minByLastUsedAux (if s0.last_used < b0.last_used then s0 else b0) rest := rfl
      by_cases hlt : s0.last_used < b0.last_used
      · rw [hunfold, if_pos hlt]
        obtain ⟨i1, i2, i3, i4⟩ := ih s0 hps
        refine ⟨List.mem_cons_of_mem b0 i1, ?_, ?_, ?_⟩
        · intro t ht
          rcases List.mem_cons.mp ht with h | h
          · subst h
            exact le_of_lt
              (lt_of_le_of_lt (i2 s0 (List.mem_cons_self s0 rest)) hlt)
          · exact i2 t h
        · right
          rcases i3 with h | h
          · rw [h]; exact hlt
          · exact lt_trans h hlt
        · intro t ht htl
          rcases List.mem_cons.mp ht with h | h
          · subst h
            exfalso
            have h2 : (minByLastUsedAux s0 rest).last_used < t.last_used :=
              lt_of_le_of_lt (i2 s0 (List.mem_cons_self s0 rest)) hlt
            rw [htl] at h2
            exact lt_irrefl _ h2
          · exact i4 t h htl
      · have hge : b0.last_used ≤ s0.last_used := Nat.not_lt.mp hlt
        rw [hunfold, if_neg hlt]
        have hpb : List.Pairwise (fun a b => a.created_at < b.created_at) (b0 :: rest) := by
          rw [List.pairwise_cons]
          exact ⟨fun t ht => hb0 t (List.mem_cons_of_mem s0 ht),
            (List.pairwise_cons.mp hps).2⟩
        obtain ⟨i1, i2, i3, i4⟩ := ih b0 hpb
        refine ⟨?_, ?_, i3, ?_⟩
        · rcases List.mem_cons.mp i1 with h | h
          · rw [h]; exact List.mem_cons_self b0 _
          · exact List.mem_cons_of_mem b0 (List.mem_cons_of_mem s0 h)
        · intro t ht
          rcases List.mem_cons.mp ht with h | h
          · subst h; exact i2 t (List.mem_cons_self t rest)
          · rcases List.mem_cons.mp h with h2 | h2
            · subst h2
              exact le_trans (i2 b0 (List.mem_cons_self b0 rest)) hge
            · exact i2 t (List.mem_cons_of_mem b0 h2)
        · intro t ht htl
          rcases List.mem_cons.mp ht with h | h
          · subst h; exact i4 t (List.mem_cons_self t rest) htl
          · rcases List.mem_cons.mp h with h2 | h2
            · subst h2
              rcases i3 with hm | hm
              · rw [hm]
                exact le_of_lt (hb0 t (List.mem_cons_self t rest))
              · exfalso
                have hcon : (minByLastUsedAux b0 rest).last_used < t.last_used :=
                  lt_of_lt_of_le hm hge
                rw [htl] at hcon
                exact lt_irrefl _ hcon
            · exact i4 t (List.mem_cons_of_mem b0 h2) htl

/-- Lazy sweep on a store with no expired session is the identity. -/
theorem evict_expired_of_live (m : SessionManager) (now : Nat)
    (h : ∀ s ∈ m.sessions,
      is_expired s m.config.session_ttl_minutes now = false) :
    _evict_expired m now = m := by
  have hf : m.sessions.filter
      (fun s => !is_expired s m.config.session_ttl_minutes now) = m.sessions :=
    List.filter_eq_self.mpr (fun a ha => by rw [h a ha]; rfl)
  unfold _evict_expired
  rw [hf]

/-- Deleting one registry entry by its (unique) id: every remaining
entry has a different id, the population shrinks by exactly one, and
every entry with a different id is retained. -/
theorem eraseP_session_id_spec (l : List Session) (id : String)
    (hids : (l.map Session.session_id).Nodup) (s : Session) (hs : s ∈ l)
    (hsid : s.session_id = id) :
    (∀ t ∈ l.eraseP (fun t => t.session_id == id), t.session_id ≠ id) ∧
    (l.eraseP (fun t => t.session_id == id)).length + 1 = l.length ∧
    (∀ t ∈ l, t.session_id ≠ id →
      t ∈ l.eraseP (fun t => t.session_id == id)) := by
  have hps : (fun t : Session => t.session_id == id) s = true := by simp [hsid]
  obtain ⟨a, l₁, l₂, hl₁, hpa, hdec, herase⟩ :=
    @List.exists_of_eraseP Session (fun t => t.session_id == id) l s hs hps
  have haid : a.session_id = id := by simpa using hpa
  have hmap : ((l₁ ++ a :: l₂).map Session.session_id).Nodup := by
    rw [← hdec]; exact hids
  rw [List.map_append, List.map_cons] at hmap
  have hnotl2 : a.session_id ∉ l₂.map Session.session_id :=
    (List.nodup_cons.mp (List.nodup_append.mp hmap).2.1).1
  have hnotl1 : ∀ b ∈ l₁, b.session_id ≠ id := by
    intro b hb hbid
    exact (hl₁ b hb) (by simp [hbid])
  refine ⟨?_, ?_, ?_⟩
  · rw [herase]
    intro t ht htid
    rcases List.mem_append.mp ht with h1 | h2
    · exact hnotl1 t h1 htid
    · apply hnotl2
      rw [haid, ← htid]
      exact List.mem_map_of_mem Session.session_id h2
  · rw [herase, hdec]
    simp only [List.length_append, List.length_cons]
    omega
  · intro t htl htid
    rw [herase]
    rw [hdec] at htl
    rcases List.mem_append.mp htl with h1 | h2
    · exact List.mem_append_left _ h1
    · rcases List.mem_cons.mp h2 with h3 | h3
      · exact absurd (by rw [h3, haid]) htid
      · exact List.mem_append_right _ h3

/-- C8: creating a session while the registry is at the configured
maximum (and no entry is TTL-expired, so only capacity eviction is in
play) evicts exactly one session: the one with the smallest last-used
timestamp, ties broken by the earliest creation timestamp (the registry
is kept in creation order, which the strict-sortedness hypothesis
records); all other sessions are retained, the population is back at
the maximum after the insert, and the evicted id subsequently resolves
to not-found. -/
theorem create_session_evicts_lru (m : SessionManager) (newId : String)
    (now now2 : Nat)
    (hcap : m.sessions.length = m.config.max_sessions)
    (hpos : 0 < m.config.max_sessions)
    (hlive : ∀ s ∈ m.sessions,
      is_expired s m.config.session_ttl_minutes now = false)
    (hids : (m.sessions.map Session.session_id).Nodup)
    (hfresh : ∀ s ∈ m.sessions, s.session_id ≠ newId)
    (hsorted : List.Pairwise (fun a b => a.created_at < b.created_at) m.sessions) :
    ∃ victim ∈ m.sessions,
      (∀ s ∈ m.sessions, victim.last_used ≤ s.last_used) ∧
      (∀ s ∈ m.sessions, s.last_used = victim.last_used →
        victim.created_at ≤ s.created_at) ∧
      (create_session m newId now).1.sessions =
        m.sessions.eraseP (fun s => s.session_id == victim.session_id) ++
          [newSession newId now] ∧
      (create_session m newId now).1.sessions.length = m.config.max_sessions ∧
      (∀ s ∈ m.sessions, s.session_id ≠ victim.session_id →
        s ∈ (create_session m newId now).1.sessions) ∧
      (get_session (create_session m newId now).1 victim.session_id now2).2 =
        none := by
  have hevict := evict_expired_of_live m now hlive
  obtain ⟨h0, t0, hses⟩ : ∃ h0 t0, m.sessions = h0 :: t0 := by
    cases hm : m.sessions with
    | nil =>
        exfalso
        rw [hm] at hcap
        simp at hcap
        omega
    | cons a b => exact ⟨a, b, rfl⟩
  obtain ⟨v1, v2, _, v4⟩ := minByLastUsedAux_spec t0 h0 (hses ▸ hsorted)
  rw [← hses] at v1 v2 v4
  have hmin : minByLastUsed m.sessions = some (minByLastUsedAux h0 t0) := by
    rw [hses]; rfl
  have hc1 : m.config.max_sessions ≤ m.sessions.length := le_of_eq hcap.symm
  have hcapEv : capacityEvict m =
      { m with sessions := (m.sessions.eraseP (fun s => s.session_id == (minByLastUsedAux h0 t0).session_id)) } := by
    unfold capacityEvict
    rw [if_pos hc1, hmin]
  have hcreate : (create_session m newId now).1.sessions =
      m.sessions.eraseP
        (fun s => s.session_id == (minByLastUsedAux h0 t0).session_id) ++
        [newSession newId now] := by
    unfold create_session
    rw [hevict, hcapEv]
  obtain ⟨e1, e2, e3⟩ :=
    eraseP_session_id_spec m.sessions (minByLastUsedAux h0 t0).session_id hids
      (minByLastUsedAux h0 t0) v1 rfl
  have hfind : (create_session m newId now).1.sessions.find?
      (fun s => s.session_id == (minByLastUsedAux h0 t0).session_id) = none := by
    apply List.find?_eq_none.mpr
    intro x hx
    rw [hcreate] at hx
    rcases List.mem_append.mp hx with h1 | h2
    · simpa using e1 x h1
    · have hx2 : x = newSession newId now := by simpa using h2
      rw [hx2]
      simp [newSession]
      exact fun hh => (hfresh (minByLastUsedAux h0 t0) v1) hh.symm
  refine ⟨minByLastUsedAux h0 t0, v1, v2, v4, hcreate, ?_, ?_, ?_⟩
  · rw [hcreate]
    simp only [List.length_append, List.length_singleton]
    omega
  · intro s hs hneq
    rw [hcreate]
    exact List.mem_append_left _ (e3 s hs hneq)
  · unfold get_session
    rw [hfind]

/-- C8 (witness): with a two-session store at capacity, creating a
third session evicts exactly the least-recently-used session `sessB`,
whose id then resolves to not-found. -/
theorem create_session_evicts_lru_witness :
    ∃ victim ∈ mgr2.sessions,
      (∀ s ∈ mgr2.sessions, victim.last_used ≤ s.last_used) ∧
      (∀ s ∈ mgr2.sessions, s.last_used = victim.last_used →
        victim.created_at ≤ s.created_at) ∧
      (create_session mgr2 "ccc" 10).1.sessions =
        mgr2.sessions.eraseP (fun s => s.session_id == victim.session_id) ++
          [newSession "ccc" 10] ∧
      (create_session mgr2 "ccc" 10).1.sessions.length =
        mgr2.config.max_sessions ∧
      (∀ s ∈ mgr2.sessions, s.session_id ≠ victim.session_id →
        s ∈ (create_session mgr2 "ccc" 10).1.sessions) ∧
      (get_session (create_session mgr2 "ccc" 10).1 victim.session_id 20).2 =
        none :=
  create_session_evicts_lru mgr2 "ccc" 10 20 rfl (by decide) (by decide)
    (by decide) (by decide) (by decide)

/-- C9: session lookup.  An unknown id returns nothing and leaves the
store untouched; a present but TTL-expired session is deleted as a side
effect, nothing is returned, and the id no longer appears in the store
nor in subsequent `list_sessions` output; a present live session is
returned with its last-used timestamp updated to now, and the touched
session is in the store. -/
theorem get_session_spec (m : SessionManager) (id : String) (now now2 : Nat)
    (hids : (m.sessions.map Session.session_id).Nodup) :
    (m.sessions.find? (fun s => s.session_id == id) = none →
      get_session m id now = (m, none)) ∧
    (∀ s, m.sessions.find? (fun t => t.session_id == id) = some s →
      is_expired s m.config.session_ttl_minutes now = true →
      (get_session m id now).2 = none ∧
      (∀ t ∈ (get_session m id now).1.sessions, t.session_id ≠ id) ∧
      (∀ u ∈ (list_sessions (get_session m id now).1 now2).2,
        u.session_id ≠ id)) ∧
    (∀ s, m.sessions.find? (fun t => t.session_id == id) = some s →
      is_expired s m.config.session_ttl_minutes now = false →
      (get_session m id now).2 = some { s with last_used := now } ∧
      { s with last_used := now } ∈ (get_session m id now).1.sessions) := by
  refine ⟨?_, ?_, ?_⟩
  · intro hfind
    unfold get_session
    rw [hfind]
  · intro s hfind hexp
    have hget : get_session m id now =
        ({ m with
            sessions := m.sessions.eraseP (fun t => t.session_id == id) },
         none) := by
      unfold get_session
      rw [hfind]
      simp [hexp]
    have hps := List.find?_some hfind
    have hsid : s.session_id = id := by simpa using hps
    have hsmem : s ∈ m.sessions := List.mem_of_find?_eq_some hfind
    obtain ⟨e1, _, _⟩ := eraseP_session_id_spec m.sessions id hids s hsmem hsid
    refine ⟨by rw [hget], ?_, ?_⟩
    · intro t ht
      rw [hget] at ht
      exact e1 t ht
    · intro u hu
      rw [hget] at hu
      obtain ⟨t, ht, hts⟩ := List.mem_map.mp hu
      have htmem : t ∈ m.sessions.eraseP (fun t => t.session_id == id) :=
        List.mem_of_mem_filter ht
      rw [← hts]
      exact e1 t htmem
  · intro s hfind hexp
    have hs := List.find?_some hfind
    have hget : get_session m id now =
        ({ m with sessions := touchAt m.sessions id now },
         some { s with last_used := now }) := by
      unfold get_session
      rw [hfind]
      simp [hexp]
    have hsmem : s ∈ m.sessions := List.mem_of_find?_eq_some hfind
    refine ⟨by rw [hget], ?_⟩
    rw [hget]
    unfold touchAt
    exact List.mem_map.mpr ⟨s, hsmem, by simp [hs]⟩

/-- C9 (witness): looking up the live session `sessB` at instant 10
returns it touched and keeps the touched entry in the store. -/
theorem get_session_spec_witness :
    (get_session mgr2 "bbb" 10).2 = some { sessB with last_used := 10 } ∧
    { sessB with last_used := 10 } ∈ (get_session mgr2 "bbb" 10).1.sessions :=
  (get_session_spec mgr2 "bbb" 10 20 (by decide)).2.2 sessB (by decide)
    (by decide)
